import Mathlib

/-!
Verification of `dataset_statistics.py` (DHSD dataset statistics and
integrity checker).

The development shallowly embeds the four core functions of the source
file — `compute_statistics`, `stratified_split`, `verify_images` and
`generate_checksums` — and proves the specification's claims about them.

Modelling conventions, stated once here:

* Python `float` values (the `test_ratio` parameter) are modelled as exact
  rationals (`ℚ`); `int(x)` is truncation toward zero.
* Python's `random.Random(seed)` is a deterministic pseudorandom stream
  seeded by an integer; `rng.shuffle` is a Fisher-Yates-style shuffle
  drawing from that stream.  The concrete stream is modelled by a linear
  congruential generator: every claim proved below is independent of the
  particular pseudorandom values, only determinism and the permutation
  property of `shuffle` matter.
* The file system is an explicit map from path strings to file states;
  `BASE_DIR / name` is modelled by the relative name itself.  Raised
  exceptions are modelled by `Except` / `Option` error values.
* `hashlib.sha256(...).hexdigest()` is a deterministic content digest; it
  is modelled by a simple fold rendered in hex, since no claim depends on
  the digest algorithm itself.
-/

/-- One row of `data.csv`, as produced by `load_annotations`: the three
manifest fields, with `writer_id` already parsed to an integer (the source
applies `int(...)` wherever it uses the field). -/
structure Record where
  file_name : String
  text : String
  writer_id : Int
deriving DecidableEq

/-- State of the seeded pseudorandom generator (`random.Random(seed)`). -/
abbrev RngState := Nat

/-- One step of the modelled pseudorandom stream (a linear congruential
generator standing in for CPython's Mersenne Twister; see the module
comment). -/
def lcg (s : RngState) : RngState := (s * 1103515245 + 12345) % 2 ^ 31

/-- Core of the modelled `rng.shuffle`: with `fuel` initially the list
length, repeatedly draw a pseudorandom index and move that element to the
front of the result, threading the generator state. -/
def shuffleGo : Nat → List α → RngState → List α × RngState
  | 0, l, s => (l, s)
  | _ + 1, [], s => ([], s)
  | fuel + 1, a :: tl, s =>
    let s' := lcg s
    let j := s' % (a :: tl).length
    let picked := (a :: tl).getD j a
    let rest := (a :: tl).eraseIdx j
    let res := shuffleGo fuel rest s'
    (picked :: res.1, res.2)

/-- Models `rng.shuffle(samples)` from `stratified_split` (source line 151):
a deterministic seeded pseudorandom permutation of the list, returning the
shuffled list and the advanced generator state. -/
def shuffle (l : List α) (s : RngState) : List α × RngState := shuffleGo l.length l s

/-- Truncating division of `a` by the positive natural `d`, rounding toward
zero: the value of Python `int(a / d)` for an exact fraction `a / d`. -/
def pyTrunc (a : Int) (d : Nat) : Int :=
  if 0 ≤ a then ((a.toNat / d : Nat) : Int) else -(((-a).toNat / d : Nat) : Int)

/-- Models `max(1, int(len(samples) * (1 - test_ratio)))` (source line 152)
with the float arithmetic read as exact rational arithmetic: for
`t = t.num / t.den`, the rational `n * (1 - t)` equals
`(n * (t.den - t.num)) / t.den`, and Python's `int()` truncates the
fraction toward zero. -/
def splitIdx (n : Nat) (t : ℚ) : Nat :=
  (max 1 (pyTrunc ((n : Int) * ((t.den : Int) - t.num)) t.den)).toNat

/-- The records of one writer, in manifest order: the content of
`by_writer[w]`, which the source builds by `setdefault`/`append` over the
rows (source lines 143-146). -/
def groupFor (rows : List Record) (w : Int) : List Record :=
  rows.filter (fun r => decide (r.writer_id = w))

/-- Number of records of writer `w` in a record list. -/
def countWriter (l : List Record) (w : Int) : Nat :=
  (l.filter (fun r => decide (r.writer_id = w))).length

/-- Deduplication keeping first occurrences, with an accumulator of values
already seen: the key order of a Python `dict` / `Counter` built by
insertion. -/
def dedupFirstAux [DecidableEq α] (seen : List α) : List α → List α
  | [] => []
  | a :: tl => if a ∈ seen then dedupFirstAux seen tl else a :: dedupFirstAux (a :: seen) tl

/-- The distinct values of a list in first-occurrence order. -/
def dedupFirst [DecidableEq α] (l : List α) : List α := dedupFirstAux [] l

/-- Insertion into a sorted list; helper for the model of Python's
`sorted`. -/
def insertLe [LinearOrder α] (a : α) : List α → List α
  | [] => [a]
  | b :: tl => if a ≤ b then a :: b :: tl else b :: insertLe a tl

/-- Models Python's `sorted`: a sort of the list in ascending order
(insertion sort; Python's Timsort produces the same value list on keys
that are themselves the compared values). -/
def sortLe [LinearOrder α] (l : List α) : List α := l.foldr insertLe []

/-- The writer ids processed by the splitter, in ascending order: models
`sorted(by_writer)` at source line 149 (the keys of `by_writer` are the
distinct writer ids in first-occurrence order). -/
def sortedWriterIds (rows : List Record) : List Int :=
  sortLe (dedupFirst (rows.map (fun r => r.writer_id)))

/-- The loop of `stratified_split` (source lines 149-154): for each writer
id in ascending order, shuffle that writer's records with the running
generator state, put the first `splitIdx` of them into `train` and the
rest into `test`. -/
def splitFold (rows : List Record) (t : ℚ) : List Int → RngState → List Record × List Record × RngState
  | [], s => ([], [], s)
  | w :: ws, s =>
    let samples := groupFor rows w
    let sh := shuffle samples s
    let idx := splitIdx samples.length t
    let rest := splitFold rows t ws sh.2
    (sh.1.take idx ++ rest.1, sh.1.drop idx ++ rest.2.1, rest.2.2)

/-- Models `stratified_split(rows, test_ratio, seed)` (source lines
133-156): group the rows by writer id, process writers in ascending order
with a generator freshly seeded from `seed`, and return the concatenated
per-writer train and test slices. -/
def stratified_split (rows : List Record) (t : ℚ) (seed : Nat) : List Record × List Record :=
  let res := splitFold rows t (sortedWriterIds rows) seed
  (res.1, res.2.1)

/-- The fixed required character set `GERMAN_SPECIAL = set("äöüÄÖÜß")`
(source line 35), as a list of its seven distinct characters. -/
def GERMAN_SPECIAL : List Char := ['ä', 'ö', 'ü', 'Ä', 'Ö', 'Ü', 'ß']

/-- The statistics snapshot returned by `compute_statistics` (source lines
76-91): one field per key of the returned dict.  Python `Counter`s are
modelled as association lists keyed in first-occurrence order; the two
`sorted(...)` character sets are sorted lists; float averages are exact
rationals. -/
structure Stats where
  total_images : Nat
  total_writers : Nat
  unique_words : Nat
  writer_counts : List (Int × Nat)
  min_words_per_writer : Nat
  max_words_per_writer : Nat
  avg_words_per_writer : ℚ
  german_chars_present : List Char
  german_chars_missing : List Char
  char_freq : List (Char × Nat)
  avg_word_length : ℚ
  min_word_length : Nat
  max_word_length : Nat
  writer_ids_sorted : List Int

/-- Models `compute_statistics(rows)` (source lines 59-91).  `min(...)` and
`max(...)` over a possibly empty collection are modelled by `List.min?` /
`List.max?`; on an empty input the first of them (`min_words_per_writer`,
evaluated first in the dict literal) has no value and the Python code
raises, modelled by `none`.  On the reachable paths the divisors of the
two averages are nonzero, so total rational division agrees with Python's
float division read exactly. -/
def compute_statistics (rows : List Record) : Option Stats :=
  let texts := rows.map (fun r => r.text)
  let writer_ids := rows.map (fun r => r.writer_id)
  let wkeys := dedupFirst writer_ids
  let writer_counts := wkeys.map (fun w => (w, writer_ids.count w))
  let unique_texts := dedupFirst texts
  let allText := (String.join texts).toList
  let all_chars := dedupFirst allText
  let german_chars_present := sortLe (GERMAN_SPECIAL.filter (fun c => decide (c ∈ all_chars)))
  let german_chars_missing := sortLe (GERMAN_SPECIAL.filter (fun c => !decide (c ∈ all_chars)))
  let char_freq := all_chars.map (fun c => (c, allText.count c))
  let lengths : List Nat := texts.map (fun x => x.length)
  match (writer_counts.map Prod.snd).min?, (writer_counts.map Prod.snd).max?,
      lengths.min?, lengths.max? with
  | some minW, some maxW, some minL, some maxL =>
    some {
      total_images := rows.length
      total_writers := writer_counts.length
      unique_words := unique_texts.length
      writer_counts := writer_counts
      min_words_per_writer := minW
      max_words_per_writer := maxW
      avg_words_per_writer := (((writer_counts.map Prod.snd).sum : ℚ)) / ((writer_counts.length : ℚ))
      german_chars_present := german_chars_present
      german_chars_missing := german_chars_missing
      char_freq := char_freq
      avg_word_length := ((lengths.sum : ℚ)) / ((lengths.length : ℚ))
      min_word_length := minL
      max_word_length := maxL
      writer_ids_sorted := sortLe wkeys
    }
  | _, _, _, _ => none

/-- State of one path on disk: absent, or a regular file with content bytes
and a readability flag (unreadable models a permission error on read). -/
inductive FileStatus where
  | absent : FileStatus
  | file (content : List Nat) (readable : Bool) : FileStatus
deriving DecidableEq

/-- The file system under `BASE_DIR`, keyed by relative path. -/
abbrev FS := String → FileStatus

/-- Models `Path.is_file()`: true exactly when the path is a regular file
(readable or not). -/
def isFile (fs : FS) (p : String) : Bool :=
  match fs p with
  | FileStatus.absent => false
  | FileStatus.file _ _ => true

/-- Models `Path.read_bytes()`: the content on success; a raised
`FileNotFoundError` / `PermissionError` is an `Except.error`. -/
def readBytes (fs : FS) (p : String) : Except String (List Nat) :=
  match fs p with
  | FileStatus.absent => Except.error ("FileNotFoundError: " ++ p)
  | FileStatus.file c true => Except.ok c
  | FileStatus.file _ false => Except.error ("PermissionError: " ++ p)

/-- Writing a file: the file system with path `p` now holding `content`. -/
def writeFs (fs : FS) (p : String) (content : List Nat) : FS :=
  fun q => if q = p then FileStatus.file content true else fs q

/-- The loop of `verify_images` (source lines 175-179): collect the
`file_name` of every record whose referenced file is not on disk, in
manifest order. -/
def missingFiles (fs : FS) : List Record → List String
  | [] => []
  | r :: rest =>
    if isFile fs r.file_name then missingFiles fs rest
    else r.file_name :: missingFiles fs rest

/-- Models `verify_images(rows)` (source lines 172-190): the returned
boolean (`True` iff the `missing` list is empty) paired with the `missing`
list itself, which the source computes and reports.  The pair is the
spec's `VerificationResult`. -/
def verify_images (fs : FS) (rows : List Record) : Bool × List String :=
  let missing := missingFiles fs rows
  (missing.isEmpty, missing)

/-- Hex rendering of a natural number (via `Nat.toDigits`). -/
def hexString (n : Nat) : String := String.mk (Nat.toDigits 16 n)

/-- Models `hashlib.sha256(bytes).hexdigest()`: a deterministic content
digest rendered in hex.  The digest function itself is modelled by a
simple fold over the bytes, since no claim depends on the digest
algorithm. -/
def sha256Hex (bytes : List Nat) : String :=
  hexString (bytes.foldl (fun acc b => (acc * 257 + b + 1) % 2 ^ 64) 0)

/-- Separator between a digest and its identifier in a checksum line (two
spaces, as in the source f-string). -/
def twoSpaces : String := "  "

/-- The fixed identifier of the manifest file itself. -/
def csvName : String := "data.csv"

/-- The path of the generated checksum file. -/
def checksumName : String := "checksums.sha256"

/-- Newline, the separator joining checksum lines. -/
def lineSep : String := "\n"

/-- The loop of `generate_checksums` over the records (source lines
210-214): for each record whose referenced file exists, read it and append
one `"<digest>  <file_name>"` entry; a read error aborts the whole loop. -/
def checksumEntriesGo (fs : FS) : List Record → Except String (List String)
  | [] => Except.ok []
  | r :: rest =>
    if isFile fs r.file_name then
      match readBytes fs r.file_name with
      | Except.error e => Except.error e
      | Except.ok c =>
        match checksumEntriesGo fs rest with
        | Except.error e => Except.error e
        | Except.ok es => Except.ok ((sha256Hex c ++ twoSpaces ++ r.file_name) :: es)
    else checksumEntriesGo fs rest

/-- Models `"\n".join(entries) + "\n"` followed by the UTF-8 write of the
checksum file (source lines 219-220). -/
def renderLines (es : List String) : List Nat :=
  ((String.intercalate lineSep es ++ lineSep).toUTF8.toList.map (fun b => b.toNat))

/-- Models `generate_checksums(rows)` (source lines 197-222): first digest
`data.csv`, then one entry per record whose file exists, in manifest
order; finally write `checksums.sha256`.  The result is the file system
after the run together with the raised exception, if any: the write
happens only after every read has succeeded, so on error the file system
is returned unchanged. -/
def generate_checksums (fs : FS) (rows : List Record) : FS × Option String :=
  match readBytes fs csvName with
  | Except.error e => (fs, some e)
  | Except.ok csvBytes =>
    match checksumEntriesGo fs rows with
    | Except.error e => (fs, some e)
    | Except.ok imgEntries =>
      let entries := (sha256Hex csvBytes ++ twoSpaces ++ csvName) :: imgEntries
      (writeFs fs checksumName (renderLines entries), none)

/-- The checksum entry list as the spec describes it (refinement target for
C7): the manifest digest first, then exactly one entry per record whose
referenced file exists on disk, in manifest order, never deduplicated or
sorted. -/
def specChecksumEntries (fs : FS) (rows : List Record) (csvBytes : List Nat) : List String :=
  (sha256Hex csvBytes ++ twoSpaces ++ csvName) ::
    rows.filterMap (fun r =>
      match fs r.file_name with
      | FileStatus.file c _ => some (sha256Hex c ++ twoSpaces ++ r.file_name)
      | FileStatus.absent => none)

/-- True when no record's referenced file is an existing-but-unreadable
file (the situation in which a checksum read raises). -/
def noUnreadable (fs : FS) (rows : List Record) : Bool :=
  rows.all (fun r =>
    match fs r.file_name with
    | FileStatus.file _ false => false
    | _ => true)

/-- True when some record's referenced file exists but is unreadable. -/
def hasUnreadable (fs : FS) (rows : List Record) : Bool :=
  rows.any (fun r =>
    match fs r.file_name with
    | FileStatus.file _ false => true
    | _ => false)

/-! ### Basic permutation lemmas for the shuffle, the sort and the grouping -/

theorem perm_getElem_cons_eraseIdx (l : List α) (j : Nat) (h : j < l.length) :
    List.Perm (l[j] :: l.eraseIdx j) l := by
  induction l generalizing j with
  | nil => simp at h
  | cons a tl ih =>
    cases j with
    | zero => simp
    | succ j =>
      have hj : j < tl.length := by simpa using h
      have h2 : List.Perm (tl[j] :: tl.eraseIdx j) tl := ih j hj
      have h3 : List.Perm (a :: tl[j] :: tl.eraseIdx j) (a :: tl) := List.Perm.cons a h2
      have h4 : List.Perm (tl[j] :: a :: tl.eraseIdx j) (a :: tl[j] :: tl.eraseIdx j) :=
        List.Perm.swap a (tl[j]) (tl.eraseIdx j)
      simpa using h4.trans h3

theorem shuffleGo_perm (fuel : Nat) (l : List α) (s : RngState) :
    List.Perm (shuffleGo fuel l s).1 l := by
  induction fuel generalizing l s with
  | zero => simp [shuffleGo]
  | succ fuel ih =>
    cases l with
    | nil => simp [shuffleGo]
    | cons a tl =>
      have hpos : 0 < (a :: tl).length := by simp
      have hj : lcg s % (a :: tl).length < (a :: tl).length := Nat.mod_lt _ hpos
      have hget : (a :: tl).getD (lcg s % (a :: tl).length) a
          = (a :: tl)[lcg s % (a :: tl).length] := List.getD_eq_getElem _ _ hj
      simp only [shuffleGo, hget]
      exact List.Perm.trans
        (List.Perm.cons _ (ih ((a :: tl).eraseIdx (lcg s % (a :: tl).length)) (lcg s)))
        (perm_getElem_cons_eraseIdx (a :: tl) (lcg s % (a :: tl).length) hj)

theorem shuffle_perm (l : List α) (s : RngState) : List.Perm (shuffle l s).1 l :=
  shuffleGo_perm l.length l s

theorem shuffle_length (l : List α) (s : RngState) : (shuffle l s).1.length = l.length :=
  (shuffle_perm l s).length_eq

theorem mem_shuffle (l : List α) (s : RngState) (x : α) :
    x ∈ (shuffle l s).1 ↔ x ∈ l :=
  (shuffle_perm l s).mem_iff

theorem insertLe_perm [LinearOrder α] (a : α) (l : List α) :
    List.Perm (insertLe a l) (a :: l) := by
  induction l with
  | nil => simp [insertLe]
  | cons b tl ih =>
    by_cases h : a ≤ b
    · simp [insertLe, h]
    · simp only [insertLe, if_neg h]
      exact List.Perm.trans (List.Perm.cons b ih) (List.Perm.swap a b tl)

theorem sortLe_perm [LinearOrder α] (l : List α) : List.Perm (sortLe l) l := by
  induction l with
  | nil => simp [sortLe]
  | cons a tl ih =>
    have : List.Perm (insertLe a (sortLe tl)) (a :: sortLe tl) := insertLe_perm a (sortLe tl)
    exact List.Perm.trans this (List.Perm.cons a ih)

theorem mem_dedupFirstAux [DecidableEq α] (l : List α) (seen : List α) (x : α) :
    x ∈ dedupFirstAux seen l ↔ x ∈ l ∧ x ∉ seen := by
  induction l generalizing seen with
  | nil => simp [dedupFirstAux]
  | cons a tl ih =>
    by_cases h : a ∈ seen
    · rw [dedupFirstAux, if_pos h, ih]
      constructor
      · rintro ⟨hx, hns⟩
        exact ⟨List.mem_cons_of_mem a hx, hns⟩
      · rintro ⟨hx, hns⟩
        rcases List.mem_cons.mp hx with rfl | hx
        · exact absurd h hns
        · exact ⟨hx, hns⟩
    · rw [dedupFirstAux, if_neg h]
      constructor
      · intro hmem
        rcases List.mem_cons.mp hmem with rfl | hmem
        · exact ⟨List.mem_cons_self x tl, h⟩
        · have hih := (ih (a :: seen)).mp hmem
          exact ⟨List.mem_cons_of_mem a hih.1,
            fun hs => hih.2 (List.mem_cons_of_mem a hs)⟩
      · rintro ⟨hx, hns⟩
        by_cases hxa : x = a
        · subst hxa
          exact List.mem_cons_self x _
        · rcases List.mem_cons.mp hx with h1 | h1
          · exact absurd h1 hxa
          · apply List.mem_cons_of_mem
            apply (ih (a :: seen)).mpr
            refine ⟨h1, fun hs => ?_⟩
            rcases List.mem_cons.mp hs with h2 | h2
            · exact hxa h2
            · exact hns h2

theorem mem_dedupFirst [DecidableEq α] (l : List α) (x : α) :
    x ∈ dedupFirst l ↔ x ∈ l := by
  simp [dedupFirst, mem_dedupFirstAux]

theorem nodup_dedupFirstAux [DecidableEq α] (l : List α) (seen : List α) :
    (dedupFirstAux seen l).Nodup := by
  induction l generalizing seen with
  | nil => simp [dedupFirstAux]
  | cons a tl ih =>
    by_cases h : a ∈ seen
    · simpa [dedupFirstAux, if_pos h] using ih seen
    · simp only [dedupFirstAux, if_neg h, List.nodup_cons]
      refine ⟨fun hmem => ?_, ih (a :: seen)⟩
      exact ((mem_dedupFirstAux tl (a :: seen) a).mp hmem).2 (List.mem_cons_self a seen)

theorem nodup_dedupFirst [DecidableEq α] (l : List α) : (dedupFirst l).Nodup :=
  nodup_dedupFirstAux l []

theorem nodup_sortedWriterIds (rows : List Record) : (sortedWriterIds rows).Nodup :=
  (sortLe_perm _).nodup_iff.mpr (nodup_dedupFirst _)

theorem mem_sortedWriterIds (rows : List Record) (w : Int) :
    w ∈ sortedWriterIds rows ↔ w ∈ rows.map (fun r => r.writer_id) := by
  rw [sortedWriterIds, (sortLe_perm _).mem_iff, mem_dedupFirst]

/-! ### The split index -/

theorem one_le_splitIdx (n : Nat) (t : ℚ) : 1 ≤ splitIdx n t := by
  have h : (1 : Int) ≤ max 1 (pyTrunc ((n : Int) * ((t.den : Int) - t.num)) t.den) :=
    le_max_left _ _
  have h2 := Int.toNat_le_toNat h
  rw [splitIdx]
  exact h2

theorem pyTrunc_nonneg_eq (a : Int) (d : Nat) (ha : 0 ≤ a) :
    pyTrunc a d = a / (d : Int) := by
  rw [pyTrunc, if_pos ha]
  rw [Int.ofNat_ediv]
  rw [Int.toNat_of_nonneg ha]

/-- For a test fraction in the open unit interval, the modelled
`int(n * (1 - t))` is exactly the floor of the exact rational
`n * (1 - t)`, so `splitIdx` is the claim's `max(1, floor(n*(1-t)))`. -/
theorem splitIdx_eq_floor (n : Nat) (t : ℚ) (h0 : 0 < t) (h1 : t < 1) :
    splitIdx n t = (max 1 ⌊(n : ℚ) * (1 - t)⌋).toNat := by
  have hm : 0 < t.num := Rat.num_pos.mpr h0
  have hmd : t.num < (t.den : Int) := Rat.lt_one_iff_num_lt_denom.mp h1
  have ha : 0 ≤ (n : Int) * ((t.den : Int) - t.num) :=
    mul_nonneg (Int.natCast_nonneg n) (by omega)
  have hden : ((t.den : ℚ)) ≠ 0 := by
    exact_mod_cast t.den_pos.ne'
  have ht : (t.num : ℚ) / (t.den : ℚ) = t := Rat.num_div_den t
  have hmul : (t.num : ℚ) = t * (t.den : ℚ) := (div_eq_iff hden).mp ht
  have hq : (n : ℚ) * (1 - t) = (((n : Int) * ((t.den : Int) - t.num) : Int) : ℚ) / ((t.den : ℚ)) := by
    rw [eq_div_iff hden]
    push_cast
    linear_combination ((n : ℚ)) * hmul
  rw [splitIdx, pyTrunc_nonneg_eq _ _ ha, hq, Rat.floor_intCast_div_natCast]

theorem splitIdx_le (n : Nat) (t : ℚ) (h0 : 0 < t) (h1 : t < 1) (hn : 1 ≤ n) :
    splitIdx n t ≤ n := by
  rw [splitIdx_eq_floor n t h0 h1]
  have hnq : (0 : ℚ) < (n : ℚ) := by exact_mod_cast hn
  have hlt : (n : ℚ) * (1 - t) < (n : ℚ) :=
    mul_lt_of_lt_one_right hnq (by linarith)
  have hfl : ⌊(n : ℚ) * (1 - t)⌋ < (n : Int) := Int.floor_lt.mpr (by exact_mod_cast hlt)
  have hmax : max 1 ⌊(n : ℚ) * (1 - t)⌋ ≤ (n : Int) := max_le (by exact_mod_cast hn) (by omega)
  exact Int.toNat_le.mpr hmax

/-! ### Writer counting -/

theorem mem_groupFor (rows : List Record) (w : Int) (r : Record) :
    r ∈ groupFor rows w ↔ r ∈ rows ∧ r.writer_id = w := by
  simp [groupFor, List.mem_filter]

theorem shuffleGroup_writer (rows : List Record) (w : Int) (s : RngState) (r : Record)
    (hr : r ∈ (shuffle (groupFor rows w) s).1) : r.writer_id = w :=
  ((mem_groupFor rows w r).mp ((mem_shuffle _ _ _).mp hr)).2

theorem countWriter_append (l₁ l₂ : List Record) (w : Int) :
    countWriter (l₁ ++ l₂) w = countWriter l₁ w + countWriter l₂ w := by
  simp [countWriter, List.filter_append]

theorem countWriter_eq_length (l : List Record) (w : Int)
    (h : ∀ r ∈ l, r.writer_id = w) : countWriter l w = l.length := by
  rw [countWriter, List.filter_eq_self.mpr (fun a ha => by simpa using h a ha)]

theorem countWriter_eq_zero (l : List Record) (w : Int)
    (h : ∀ r ∈ l, r.writer_id ≠ w) : countWriter l w = 0 := by
  rw [countWriter, List.filter_eq_nil_iff.mpr (fun a ha => by simpa using h a ha)]
  rfl

theorem one_le_countWriter (rows : List Record) (w : Int)
    (hw : w ∈ rows.map (fun r => r.writer_id)) : 1 ≤ countWriter rows w := by
  rcases List.mem_map.mp hw with ⟨r, hr, hrw⟩
  have hmem : r ∈ rows.filter (fun x => decide (x.writer_id = w)) :=
    List.mem_filter.mpr ⟨hr, by simp [hrw]⟩
  exact List.length_pos.mpr (List.ne_nil_of_mem hmem)

/-! ### The split loop -/

theorem splitFold_writer (rows : List Record) (t : ℚ) : ∀ (ids : List Int) (s : RngState),
    (∀ r ∈ (splitFold rows t ids s).1, r.writer_id ∈ ids) ∧
    (∀ r ∈ (splitFold rows t ids s).2.1, r.writer_id ∈ ids) := by
  intro ids
  induction ids with
  | nil => intro s; simp [splitFold]
  | cons v ws ih =>
    intro s
    simp only [splitFold]
    constructor
    · intro r hr
      rcases List.mem_append.mp hr with hr | hr
      · have hr2 : r ∈ (shuffle (groupFor rows v) s).1 := List.take_subset _ _ hr
        simp [shuffleGroup_writer rows v s r hr2]
      · exact List.mem_cons_of_mem v ((ih _).1 r hr)
    · intro r hr
      rcases List.mem_append.mp hr with hr | hr
      · have hr2 : r ∈ (shuffle (groupFor rows v) s).1 := List.drop_subset _ _ hr
        simp [shuffleGroup_writer rows v s r hr2]
      · exact List.mem_cons_of_mem v ((ih _).2 r hr)

theorem splitFold_countWriter (rows : List Record) (t : ℚ) (w : Int) :
    ∀ (ids : List Int), ids.Nodup → w ∈ ids → ∀ (s : RngState),
    countWriter (splitFold rows t ids s).1 w
        = min (splitIdx (countWriter rows w) t) (countWriter rows w) ∧
    countWriter (splitFold rows t ids s).2.1 w
        = countWriter rows w - min (splitIdx (countWriter rows w) t) (countWriter rows w) := by
  intro ids
  induction ids with
  | nil => intro _ hw; simp at hw
  | cons v ws ih =>
    intro hnd hw s
    rcases List.nodup_cons.mp hnd with ⟨hv, hnd2⟩
    simp only [splitFold]
    have hlen : (shuffle (groupFor rows v) s).1.length = countWriter rows v :=
      shuffle_length _ _
    by_cases hvw : v = w
    · subst hvw
      have hrest0 : countWriter (splitFold rows t ws (shuffle (groupFor rows v) s).2).1 v = 0 :=
        countWriter_eq_zero _ _ (fun r hr heq => hv (heq ▸ (splitFold_writer rows t ws _).1 r hr))
      have hrest0t : countWriter (splitFold rows t ws (shuffle (groupFor rows v) s).2).2.1 v = 0 :=
        countWriter_eq_zero _ _ (fun r hr heq => hv (heq ▸ (splitFold_writer rows t ws _).2 r hr))
      have htake : countWriter ((shuffle (groupFor rows v) s).1.take (splitIdx (groupFor rows v).length t)) v
          = min (splitIdx (countWriter rows v) t) (countWriter rows v) := by
        rw [countWriter_eq_length _ _
          (fun r hr => shuffleGroup_writer rows v s r (List.take_subset _ _ hr))]
        rw [List.length_take, hlen]
        rfl
      have hdrop : countWriter ((shuffle (groupFor rows v) s).1.drop (splitIdx (groupFor rows v).length t)) v
          = countWriter rows v - splitIdx (countWriter rows v) t := by
        rw [countWriter_eq_length _ _
          (fun r hr => shuffleGroup_writer rows v s r (List.drop_subset _ _ hr))]
        rw [List.length_drop, hlen]
        rfl
      constructor
      · rw [countWriter_append, htake, hrest0]
        omega
      · rw [countWriter_append, hdrop, hrest0t]
        omega

    · have hw2 : w ∈ ws := by
        rcases List.mem_cons.mp hw with h | h
        · exact absurd h.symm hvw
        · exact h
      have htake0 : countWriter ((shuffle (groupFor rows v) s).1.take (splitIdx (groupFor rows v).length t)) w = 0 :=
        countWriter_eq_zero _ _ (fun r hr heq =>
          hvw ((shuffleGroup_writer rows v s r (List.take_subset _ _ hr)).symm.trans heq))
      have hdrop0 : countWriter ((shuffle (groupFor rows v) s).1.drop (splitIdx (groupFor rows v).length t)) w = 0 :=
        countWriter_eq_zero _ _ (fun r hr heq =>
          hvw ((shuffleGroup_writer rows v s r (List.drop_subset _ _ hr)).symm.trans heq))
      constructor
      · rw [countWriter_append, htake0, (ih hnd2 hw2 _).1]
        omega
      · rw [countWriter_append, hdrop0, (ih hnd2 hw2 _).2]
        omega

/-! ### Partition and permutation structure of the split -/

theorem middle_pair_swap_perm (p q u v : List α) :
    List.Perm ((p ++ q) ++ (u ++ v)) ((p ++ u) ++ (q ++ v)) := by
  have hqu : List.Perm ((q ++ u) ++ v) ((u ++ q) ++ v) :=
    List.Perm.append_right v (@List.perm_append_comm _ q u)
  have hall := hqu.append_left p
  simpa [List.append_assoc] using hall

theorem splitFold_perm (rows : List Record) (t : ℚ) : ∀ (ids : List Int) (s : RngState),
    List.Perm ((splitFold rows t ids s).1 ++ (splitFold rows t ids s).2.1)
      ((ids.map (groupFor rows)).flatten) := by
  intro ids
  induction ids with
  | nil => intro s; simp [splitFold]
  | cons v ws ih =>
    intro s
    simp only [splitFold, List.map_cons, List.flatten_cons]
    refine List.Perm.trans (middle_pair_swap_perm _ _ _ _) ?_
    rw [List.take_append_drop]
    exact List.Perm.append (shuffle_perm _ _) (ih _)

theorem join_groupFor_perm : ∀ (ids : List Int) (rows : List Record), ids.Nodup →
    (∀ r ∈ rows, r.writer_id ∈ ids) →
    List.Perm ((ids.map (groupFor rows)).flatten) rows := by
  intro ids
  induction ids with
  | nil =>
    intro rows _ hcov
    have hempty : rows = [] :=
      List.eq_nil_iff_forall_not_mem.mpr (fun r hr => by simpa using hcov r hr)
    simp [hempty]
  | cons v ws ih =>
    intro rows hnd hcov
    rcases List.nodup_cons.mp hnd with ⟨hv, hnd2⟩
    have hmap : ws.map (groupFor rows)
        = ws.map (groupFor (rows.filter (fun r => !decide (r.writer_id = v)))) := by
      apply List.map_congr_left
      intro u hu
      have huv : u ≠ v := fun he => hv (he ▸ hu)
      rw [groupFor, groupFor, List.filter_filter]
      apply List.filter_congr
      intro r _
      by_cases hr : r.writer_id = u
      · simp only [hr]
        simp [huv]
      · simp [hr]
    have hcov2 : ∀ r ∈ rows.filter (fun r => !decide (r.writer_id = v)), r.writer_id ∈ ws := by
      intro r hr
      have h1 := List.mem_filter.mp hr
      have h2 := hcov r h1.1
      rcases List.mem_cons.mp h2 with he | he
      · exfalso
        have h3 := h1.2
        simp [he] at h3
      · exact he
    have hjoin : List.Perm ((ws.map (groupFor rows)).flatten)
        (rows.filter (fun r => !decide (r.writer_id = v))) := by
      rw [hmap]
      exact ih _ hnd2 hcov2
    simp only [List.map_cons, List.flatten_cons]
    have h1 : List.Perm (groupFor rows v ++ (ws.map (groupFor rows)).flatten)
        (groupFor rows v ++ rows.filter (fun r => !decide (r.writer_id = v))) :=
      hjoin.append_left _
    exact h1.trans (List.filter_append_perm _ rows)

theorem stratified_split_perm (rows : List Record) (t : ℚ) (seed : Nat) :
    List.Perm ((stratified_split rows t seed).1 ++ (stratified_split rows t seed).2) rows := by
  have h1 := splitFold_perm rows t (sortedWriterIds rows) seed
  have h2 := join_groupFor_perm (sortedWriterIds rows) rows (nodup_sortedWriterIds rows)
    (fun r hr => (mem_sortedWriterIds rows r.writer_id).mpr (List.mem_map_of_mem _ hr))
  exact h1.trans h2

theorem stratified_split_countWriter (rows : List Record) (t : ℚ) (seed : Nat) (w : Int)
    (hw : w ∈ rows.map (fun r => r.writer_id)) :
    countWriter (stratified_split rows t seed).1 w
        = min (splitIdx (countWriter rows w) t) (countWriter rows w) ∧
    countWriter (stratified_split rows t seed).2 w
        = countWriter rows w - min (splitIdx (countWriter rows w) t) (countWriter rows w) :=
  splitFold_countWriter rows t w (sortedWriterIds rows) (nodup_sortedWriterIds rows)
    ((mem_sortedWriterIds rows w).mpr hw) seed

/-! ### Counting lemmas for the statistics -/

theorem sum_map_zero (ks : List α) : (ks.map (fun _ => (0 : Nat))).sum = 0 := by
  induction ks with
  | nil => simp
  | cons k ks ih => simp [ih]

theorem sum_map_add (f g : α → Nat) (l : List α) :
    (l.map (fun x => f x + g x)).sum = (l.map f).sum + (l.map g).sum := by
  induction l with
  | nil => simp
  | cons a tl ih =>
    simp only [List.map_cons, List.sum_cons, ih]
    omega

theorem sum_indicator_not_mem [BEq α] [LawfulBEq α] (a : α) :
    ∀ ks : List α, a ∉ ks → (ks.map (fun k => if a == k then 1 else 0)).sum = 0 := by
  intro ks
  induction ks with
  | nil => intro _; simp
  | cons k ks ih =>
    intro h
    have hk : ¬ (a == k) = true := by
      intro hb
      exact h (by rw [beq_iff_eq] at hb; simp [hb])
    simp only [List.map_cons, List.sum_cons, if_neg hk]
    rw [ih (fun hmem => h (List.mem_cons_of_mem k hmem))]

theorem sum_indicator_mem [BEq α] [LawfulBEq α] (a : α) :
    ∀ ks : List α, ks.Nodup → a ∈ ks →
    (ks.map (fun k => if a == k then 1 else 0)).sum = 1 := by
  intro ks
  induction ks with
  | nil => intro _ h; simp at h
  | cons k ks ih =>
    intro hnd hmem
    rcases List.nodup_cons.mp hnd with ⟨hk, hnd2⟩
    rcases List.mem_cons.mp hmem with rfl | hmem2
    · simp only [List.map_cons, List.sum_cons, beq_self_eq_true, if_pos]
      rw [sum_indicator_not_mem a ks hk]
    · have hne : ¬ (a == k) = true := by
        intro hb
        rw [beq_iff_eq] at hb
        exact hk (hb ▸ hmem2)
      simp only [List.map_cons, List.sum_cons, if_neg hne]
      rw [ih hnd2 hmem2]

theorem sum_map_count [BEq α] [LawfulBEq α] (ks : List α) (hnd : ks.Nodup) :
    ∀ l : List α, (∀ x ∈ l, x ∈ ks) → (ks.map (fun k => l.count k)).sum = l.length := by
  intro l
  induction l with
  | nil =>
    intro _
    simp only [List.count_nil]
    rw [sum_map_zero]
    rfl
  | cons a tl ih =>
    intro hcov
    have ha : a ∈ ks := hcov a (List.mem_cons_self a tl)
    have hcov2 : ∀ x ∈ tl, x ∈ ks := fun x hx => hcov x (List.mem_cons_of_mem a hx)
    have hmapeq : (ks.map fun k => (a :: tl).count k)
        = ks.map (fun k => tl.count k + if a == k then 1 else 0) :=
      List.map_congr_left (fun k _ => List.count_cons k a tl)
    rw [hmapeq, sum_map_add, ih hcov2, sum_indicator_mem a ks hnd ha]
    simp

/-! ### Structure of a successful statistics snapshot -/

theorem compute_statistics_fields (rows : List Record) (s : Stats)
    (hs : compute_statistics rows = some s) :
    s.total_images = rows.length ∧
    (s.writer_counts.map Prod.snd).sum = s.total_images ∧
    List.Perm (s.german_chars_present ++ s.german_chars_missing) GERMAN_SPECIAL ∧
    s.german_chars_present.Disjoint s.german_chars_missing := by
  simp only [compute_statistics] at hs
  split at hs
  case _ minW maxW minL maxL heq1 heq2 heq3 heq4 =>
    rw [Option.some.injEq] at hs
    subst hs
    refine ⟨rfl, ?_, ?_, ?_⟩
    · show ((((dedupFirst (rows.map fun r => r.writer_id)).map
          (fun w => (w, (rows.map fun r => r.writer_id).count w))).map Prod.snd).sum) = rows.length
      rw [List.map_map]
      have hcomp : (Prod.snd ∘ fun w => (w, (rows.map fun r => r.writer_id).count w))
          = fun w => (rows.map fun r => r.writer_id).count w := rfl
      rw [hcomp]
      rw [sum_map_count (dedupFirst (rows.map fun r => r.writer_id)) (nodup_dedupFirst _)
        (rows.map fun r => r.writer_id) (fun x hx => (mem_dedupFirst _ x).mpr hx)]
      simp
    · exact List.Perm.trans
        (List.Perm.append (sortLe_perm _) (sortLe_perm _))
        (List.filter_append_perm _ GERMAN_SPECIAL)
    · intro c h1 h2
      have h1m := (sortLe_perm _).mem_iff.mp h1
      have h2m := (sortLe_perm _).mem_iff.mp h2
      have h1f := (List.mem_filter.mp h1m).2
      have h2f := (List.mem_filter.mp h2m).2
      rw [h1f] at h2f
      exact Bool.noConfusion h2f
  case _ =>
    exact Option.noConfusion hs

/-! ### Verification lemmas -/

theorem missingFiles_eq (fs : FS) : ∀ rows : List Record,
    missingFiles fs rows
      = (rows.filter (fun r => !(isFile fs r.file_name))).map (fun r => r.file_name) := by
  intro rows
  induction rows with
  | nil => simp [missingFiles]
  | cons r rest ih =>
    by_cases h : isFile fs r.file_name
    · simp [missingFiles, h, ih]
    · simp only [missingFiles]
      rw [if_neg (by simp [h])]
      simp [List.filter_cons, h, ih]

theorem isEmpty_missingFiles (fs : FS) : ∀ rows : List Record,
    (missingFiles fs rows).isEmpty = rows.all (fun r => isFile fs r.file_name) := by
  intro rows
  induction rows with
  | nil => rfl
  | cons r rest ih =>
    by_cases h : isFile fs r.file_name
    · simp only [missingFiles]
      rw [if_pos (by simp [h])]
      simp [h, ih]
    · simp only [missingFiles]
      rw [if_neg (by simp [h])]
      simp [h]

/-! ### Checksum lemmas -/

theorem checksumEntriesGo_ok (fs : FS) : ∀ rows : List Record,
    noUnreadable fs rows = true →
    checksumEntriesGo fs rows = Except.ok (rows.filterMap (fun r =>
      match fs r.file_name with
      | FileStatus.file c _ => some (sha256Hex c ++ twoSpaces ++ r.file_name)
      | FileStatus.absent => none)) := by
  intro rows
  induction rows with
  | nil => intro _; rfl
  | cons r rest ih =>
    intro h
    simp only [noUnreadable, List.all_cons, Bool.and_eq_true] at h
    rcases h with ⟨h1, h2⟩
    rcases hfs : fs r.file_name with _ | ⟨c, rb⟩
    · have hif : isFile fs r.file_name = false := by rw [isFile, hfs]
      rw [checksumEntriesGo, if_neg (by simp [hif]), ih h2]
      simp [List.filterMap_cons, hfs]
    · cases rb with
      | false =>
        rw [hfs] at h1
        simp at h1
      | true =>
        have hif : isFile fs r.file_name = true := by rw [isFile, hfs]
        have hrb : readBytes fs r.file_name = Except.ok c := by rw [readBytes, hfs]
        rw [checksumEntriesGo, if_pos (by simp [hif]), hrb, ih h2]
        simp [List.filterMap_cons, hfs]

theorem generate_checksums_eq (fs : FS) (rows : List Record) (csvBytes : List Nat)
    (hcsv : fs csvName = FileStatus.file csvBytes true)
    (hread : noUnreadable fs rows = true) :
    generate_checksums fs rows =
      (writeFs fs checksumName (renderLines (specChecksumEntries fs rows csvBytes)), none) := by
  have h1 : readBytes fs csvName = Except.ok csvBytes := by rw [readBytes, hcsv]
  rw [generate_checksums, h1, checksumEntriesGo_ok fs rows hread]
  rfl

theorem checksumEntriesGo_error (fs : FS) : ∀ rows : List Record,
    hasUnreadable fs rows = true →
    ∃ e, checksumEntriesGo fs rows = Except.error e := by
  intro rows
  induction rows with
  | nil => intro h; simp [hasUnreadable] at h
  | cons r rest ih =>
    intro h
    simp only [hasUnreadable, List.any_cons, Bool.or_eq_true] at h
    rcases hfs : fs r.file_name with _ | ⟨c, rb⟩
    · have h2 : hasUnreadable fs rest = true := by
        rcases h with h | h
        · rw [hfs] at h; simp at h
        · exact h
      obtain ⟨e, he⟩ := ih h2
      have hif : isFile fs r.file_name = false := by rw [isFile, hfs]
      exact ⟨e, by rw [checksumEntriesGo, if_neg (by simp [hif]), he]⟩
    · cases rb with
      | false =>
        have hif : isFile fs r.file_name = true := by rw [isFile, hfs]
        have hrb : readBytes fs r.file_name
            = Except.error ("PermissionError: " ++ r.file_name) := by
          rw [readBytes, hfs]
        exact ⟨_, by rw [checksumEntriesGo, if_pos (by simp [hif]), hrb]⟩
      | true =>
        have h2 : hasUnreadable fs rest = true := by
          rcases h with h | h
          · rw [hfs] at h; simp at h
          · exact h
        obtain ⟨e, he⟩ := ih h2
        have hif : isFile fs r.file_name = true := by rw [isFile, hfs]
        have hrb : readBytes fs r.file_name = Except.ok c := by rw [readBytes, hfs]
        exact ⟨e, by rw [checksumEntriesGo, if_pos (by simp [hif]), hrb, he]⟩

/-! ### Concrete fixtures for witnesses and counterexamples -/

/-- The spec's scenario record for writer 1, text "Straße". -/
def recStrasse : Record := ⟨"w1_strasse.png", "Straße", 1⟩

/-- The spec's scenario record for writer 1, text "Müller". -/
def recMueller : Record := ⟨"w1_mueller.png", "Müller", 1⟩

/-- The spec's scenario record for writer 2, text "Schön". -/
def recSchoen : Record := ⟨"w2_schoen.png", "Schön", 2⟩

/-- The spec's scenario manifest: writer 1 with two samples, writer 2 with
one. -/
def scenarioRows : List Record := [recStrasse, recMueller, recSchoen]

/-- A file system with a readable manifest, the first scenario image
present and readable, the second scenario image absent. -/
def fsGood : FS := fun p =>
  if p = csvName then FileStatus.file [0, 1] true
  else if p = "w1_strasse.png" then FileStatus.file [2] true
  else FileStatus.absent

/-- A file system where the first scenario image exists but is unreadable
(permission error on read). -/
def fsPerm : FS := fun p =>
  if p = csvName then FileStatus.file [0, 1] true
  else if p = "w1_strasse.png" then FileStatus.file [2] false
  else FileStatus.absent

/-! ### The claims -/

/-- C1: for every record list, every test_ratio in the open interval (0,1)
and every seed, the stratified split assigns to each occurring writer with
n samples exactly `(max 1 ⌊n·(1-ratio)⌋).toNat` of that writer's records
to train and the remaining `n` minus that count to test; in particular a
writer with exactly one sample has that sample in train and none in
test. -/
theorem stratified_split_floor_counts (rows : List Record) (t : ℚ)
    (h0 : 0 < t) (h1 : t < 1) (seed : Nat) (w : Int)
    (hw : w ∈ rows.map (fun r => r.writer_id)) :
    countWriter (stratified_split rows t seed).1 w
        = (max 1 ⌊((countWriter rows w : ℚ)) * (1 - t)⌋).toNat ∧
    countWriter (stratified_split rows t seed).2 w
        = countWriter rows w - countWriter (stratified_split rows t seed).1 w := by
  have hn := one_le_countWriter rows w hw
  have hle := splitIdx_le (countWriter rows w) t h0 h1 hn
  have hmin : min (splitIdx (countWriter rows w) t) (countWriter rows w)
      = splitIdx (countWriter rows w) t := Nat.min_eq_left hle
  obtain ⟨htr, hte⟩ := stratified_split_countWriter rows t seed w hw
  constructor
  · rw [htr, hmin, splitIdx_eq_floor _ _ h0 h1]
  · rw [hte, htr]

/-- Witness for C1: the spec's scenario (writer 1 with 2 samples, writer 2
with 1 sample, ratio 1/5, seed 42), instantiated at writer 1. -/
theorem stratified_split_floor_counts_witness :
    countWriter (stratified_split scenarioRows (mkRat 1 5) 42).1 1
        = (max 1 ⌊((countWriter scenarioRows 1 : ℚ)) * (1 - mkRat 1 5)⌋).toNat ∧
    countWriter (stratified_split scenarioRows (mkRat 1 5) 42).2 1
        = countWriter scenarioRows 1
            - countWriter (stratified_split scenarioRows (mkRat 1 5) 42).1 1 :=
  stratified_split_floor_counts scenarioRows (mkRat 1 5) (by decide) (by decide) 42 1 (by decide)

/-- C2 counterexample: on an input containing the same record twice (the
claim quantifies over every list of records), the record ends up in both
train and test at ratio 1/2, so the two sides are not disjoint as
sequences of record values. -/
theorem stratified_split_duplicate_overlap :
    recStrasse ∈ (stratified_split [recStrasse, recStrasse] (mkRat 1 2) 42).1 ∧
    recStrasse ∈ (stratified_split [recStrasse, recStrasse] (mkRat 1 2) 42).2 := by
  decide

/-- C2 (amended): for every record list and ratio in (0,1) and seed, the
multiset union of train and test equals the input record list; and when
the input contains no duplicate records, train and test are disjoint. -/
theorem stratified_split_partition (rows : List Record) (t : ℚ)
    (h0 : 0 < t) (h1 : t < 1) (seed : Nat) :
    List.Perm ((stratified_split rows t seed).1 ++ (stratified_split rows t seed).2) rows ∧
    (rows.Nodup →
      ∀ x ∈ (stratified_split rows t seed).1, x ∉ (stratified_split rows t seed).2) := by
  refine ⟨stratified_split_perm rows t seed, ?_⟩
  intro hnd x hx1 hx2
  have hnd2 : ((stratified_split rows t seed).1 ++ (stratified_split rows t seed).2).Nodup :=
    (stratified_split_perm rows t seed).nodup_iff.mpr hnd
  rcases List.nodup_append.mp hnd2 with ⟨_, _, hdisj⟩
  exact hdisj hx1 hx2

/-- Witness for C2 (amended) on two distinct single-sample writers: the
first record is in train and not in test. -/
theorem stratified_split_partition_witness :
    recStrasse ∉ (stratified_split [recStrasse, recSchoen] (mkRat 1 5) 42).2 :=
  (stratified_split_partition [recStrasse, recSchoen] (mkRat 1 5)
    (by decide) (by decide) 42).2 (by decide) recStrasse (by decide)

/-- C3: the stratified split is deterministic — two calls with identical
record sequence, identical test_ratio and identical seed return identical
train and test sequences.  In the embedding the split is a pure function
of exactly these three arguments (the source seeds a fresh
`random.Random(seed)` on every call and mutates only freshly built
per-writer lists), so determinism is definitional. -/
theorem stratified_split_deterministic (rows : List Record) (t : ℚ) (seed : Nat) :
    stratified_split rows t seed = stratified_split rows t seed := rfl

/-- C4: on an empty record sequence the statistics aggregator produces no
snapshot — the source raises at `min(writer_counts.values())`, the first
empty-collection reduction in the returned dict, modelled by `none` —
rather than returning a snapshot of zeros or NaNs. -/
theorem compute_statistics_empty : compute_statistics [] = none := rfl

/-- C5 counterexample: called with `test_ratio = 3/2`, outside the open
interval (0,1), the split does not fail with any error: it returns an
ordinary split (the single record goes to train).  `stratified_split`
performs no ratio validation and no InvalidRatioError exists in the
source. -/
theorem stratified_split_ratio_unchecked :
    stratified_split [recStrasse] (mkRat 3 2) 42 = ([recStrasse], []) := by
  decide

/-- C5 (amended): for every record list, every seed and every finite
test_ratio — including values at or outside (0,1) — the split returns,
without any error, a train/test pair whose lengths sum to the number of
input records. -/
theorem stratified_split_total (rows : List Record) (t : ℚ) (seed : Nat) :
    (stratified_split rows t seed).1.length + (stratified_split rows t seed).2.length
      = rows.length := by
  have h := (stratified_split_perm rows t seed).length_eq
  simpa [List.length_append] using h

/-- C6: for every non-empty record list, any snapshot the aggregator
returns satisfies: total_images equals the number of records, the
writer_counts values sum to total_images, and the present and missing
German character lists form a partition of the fixed required set
{ä,ö,ü,Ä,Ö,Ü,ß} — together they are a permutation of it and they are
disjoint. -/
theorem compute_statistics_invariants (rows : List Record) (hne : rows ≠ [])
    (s : Stats) (hs : compute_statistics rows = some s) :
    s.total_images = rows.length ∧
    (s.writer_counts.map Prod.snd).sum = s.total_images ∧
    List.Perm (s.german_chars_present ++ s.german_chars_missing) GERMAN_SPECIAL ∧
    s.german_chars_present.Disjoint s.german_chars_missing :=
  compute_statistics_fields rows s hs

/-- Witness for C6 at the spec's scenario rows (a successful concrete
snapshot exists and satisfies the invariants). -/
theorem compute_statistics_invariants_witness :
    (Option.get (compute_statistics scenarioRows) (by rfl)).total_images
        = scenarioRows.length ∧
    ((Option.get (compute_statistics scenarioRows) (by rfl)).writer_counts.map Prod.snd).sum
        = (Option.get (compute_statistics scenarioRows) (by rfl)).total_images ∧
    List.Perm ((Option.get (compute_statistics scenarioRows) (by rfl)).german_chars_present
        ++ (Option.get (compute_statistics scenarioRows) (by rfl)).german_chars_missing)
      GERMAN_SPECIAL ∧
    (Option.get (compute_statistics scenarioRows) (by rfl)).german_chars_present.Disjoint
      (Option.get (compute_statistics scenarioRows) (by rfl)).german_chars_missing :=
  compute_statistics_invariants scenarioRows (by decide)
    (Option.get (compute_statistics scenarioRows) (by rfl)) (Option.some_get (by rfl)).symm

/-- C7: when the manifest file is readable and no record's existing file is
unreadable, the checksum run raises no error and writes exactly the
spec's entry sequence: the manifest digest first, then one
digest-filename entry per record whose file exists, in manifest order
(records with missing files contribute nothing and raise nothing; the
sequence is a filterMap of the input, hence never deduplicated or
sorted). -/
theorem generate_checksums_entries (fs : FS) (rows : List Record) (csvBytes : List Nat)
    (hcsv : fs csvName = FileStatus.file csvBytes true)
    (hread : noUnreadable fs rows = true) :
    generate_checksums fs rows
      = (writeFs fs checksumName (renderLines (specChecksumEntries fs rows csvBytes)), none) :=
  generate_checksums_eq fs rows csvBytes hcsv hread

/-- Witness for C7: one existing record file, one missing record file. -/
theorem generate_checksums_entries_witness :
    generate_checksums fsGood [recStrasse, recMueller]
      = (writeFs fsGood checksumName
          (renderLines (specChecksumEntries fsGood [recStrasse, recMueller] [0, 1])), none) :=
  generate_checksums_entries fsGood [recStrasse, recMueller] [0, 1] (by decide) (by decide)

/-- C8: if some record's referenced file exists but cannot be read, the
checksum run aborts with an error and the file system is returned
unchanged — no checksum output file, not even a partial one, is written,
because the single write happens only after every read has succeeded. -/
theorem generate_checksums_unreadable_aborts (fs : FS) (rows : List Record)
    (h : hasUnreadable fs rows = true) :
    (generate_checksums fs rows).2.isSome = true ∧ (generate_checksums fs rows).1 = fs := by
  rcases hq : readBytes fs csvName with e | cb
  · rw [generate_checksums, hq]
    simp
  · obtain ⟨e, he⟩ := checksumEntriesGo_error fs rows h
    rw [generate_checksums, hq, he]
    simp

/-- Witness for C8: a record whose file exists but is unreadable. -/
theorem generate_checksums_unreadable_aborts_witness :
    (generate_checksums fsPerm [recStrasse]).2.isSome = true ∧
    (generate_checksums fsPerm [recStrasse]).1 = fsPerm :=
  generate_checksums_unreadable_aborts fsPerm [recStrasse] (by decide)

/-- C9: the existence verifier's boolean is true exactly when every
referenced file exists (it equals `rows.all isFile`), and its missing list
is the file_name of each record whose file is absent, in manifest order;
in particular when the records with an absent file are exactly one record,
the boolean is false and the missing list is exactly that record's
file_name. -/
theorem verify_images_result (fs : FS) (rows : List Record) :
    ((verify_images fs rows).1 = rows.all (fun r => isFile fs r.file_name)) ∧
    ((verify_images fs rows).2
        = (rows.filter (fun r => !(isFile fs r.file_name))).map (fun r => r.file_name)) ∧
    (∀ r₀ : Record, rows.filter (fun r => !(isFile fs r.file_name)) = [r₀] →
      (verify_images fs rows).1 = false ∧ (verify_images fs rows).2 = [r₀.file_name]) := by
  refine ⟨isEmpty_missingFiles fs rows, missingFiles_eq fs rows, ?_⟩
  intro r₀ hr
  constructor
  · show (missingFiles fs rows).isEmpty = false
    rw [missingFiles_eq fs rows, hr]
    rfl
  · show missingFiles fs rows = [r₀.file_name]
    rw [missingFiles_eq fs rows, hr]
    rfl

/-- Witness for C9: two records, exactly one of whose files is absent. -/
theorem verify_images_result_witness :
    (verify_images fsGood [recStrasse, recMueller]).1 = false ∧
    (verify_images fsGood [recStrasse, recMueller]).2 = [recMueller.file_name] :=
  (verify_images_result fsGood [recStrasse, recMueller]).2.2 recMueller (by decide)

/-- C10: for every record list, every seed and every finite test_ratio —
with no (0,1) restriction, since the code accepts any value without
validation — train ++ test is still a permutation (multiset equality) of
the input and every occurring writer still has at least one record in
train: the `max(1, ...)` guard and the slice-based partition apply
unconditionally. -/
theorem stratified_split_unconditional (rows : List Record) (t : ℚ) (seed : Nat) :
    List.Perm ((stratified_split rows t seed).1 ++ (stratified_split rows t seed).2) rows ∧
    ∀ w ∈ rows.map (fun r => r.writer_id),
      1 ≤ countWriter (stratified_split rows t seed).1 w := by
  refine ⟨stratified_split_perm rows t seed, ?_⟩
  intro w hw
  obtain ⟨htr, _⟩ := stratified_split_countWriter rows t seed w hw
  rw [htr]
  have h1 := one_le_splitIdx (countWriter rows w) t
  have h2 := one_le_countWriter rows w hw
  omega

/-- Witness for C10 at ratio 5, far outside (0,1): writer 1 still has a
record in train. -/
theorem stratified_split_unconditional_witness :
    1 ≤ countWriter (stratified_split scenarioRows (mkRat 5 1) 42).1 1 :=
  (stratified_split_unconditional scenarioRows (mkRat 5 1) 42).2 1 (by decide)
